import Mathlib

/-!
Verification development for the ProgressionBuilder concept
(src/progressionbuilder.ts): a chord-progression store with bounds-checked
slot operations, and the LLM-response validation pipeline built from a
regex extraction step, JSON parsing, a cardinality check and a
chord-grammar check.

Modelling conventions:
the TypeScript type `Chord = string | null` becomes `Option String`;
JS numbers used as positions become `Int` (so negative positions are
representable); thrown `Error`s become the `PBError` inductive, each
constructor recording the data interpolated into the corresponding
message (rendered by `PBError.message`); the asynchronous LLM collaborator
becomes a function from prompt to `Except PBError String`.
All recursion is structural (lists, or an explicit fuel on `Nat`) so that
every definition evaluates by kernel reduction.
-/

namespace ChordProg

/-- Errors surfaced by ProgressionBuilder methods.  `invalidPosition` is the
`Invalid position: ...` error of `validatePosition`; `invalidFormat` is
`Invalid JSON response format`; `jsonSyntaxError` stands for the SyntaxError
thrown by `JSON.parse` and rethrown unchanged; `invalidCount` and
`invalidChord` are the two validation errors of `parseChordSuggestions`;
`typeError` stands for a TypeError raised by JS member access on a value of
the wrong type; `llmFailure` is a failure of the external LLM collaborator,
propagated unchanged by the catch/rethrow in `suggestChords`. -/
inductive PBError where
  | invalidPosition (position : Int) (maxIndex : Int)
  | invalidFormat
  | jsonSyntaxError
  | invalidCount (n : Nat)
  | invalidChord (chord : String)
  | typeError
  | llmFailure (message : String)
deriving DecidableEq, Repr

/-- Message text carried by each error, matching the TypeScript template
literals. -/
def PBError.message : PBError → String
  | .invalidPosition p m =>
      "Invalid position: " ++ toString p ++ ". Must be between 0 and " ++ toString m
  | .invalidFormat => "Invalid JSON response format"
  | .jsonSyntaxError => "SyntaxError"
  | .invalidCount n => "Invalid number of chord suggestions: " ++ toString n
  | .invalidChord c => "Invalid chord suggestion: " ++ c
  | .typeError => "TypeError"
  | .llmFailure m => m

/-- The `Progression` interface: a key string and an ordered list of slots,
each holding a chord symbol or empty (`null`). -/
structure Progression where
  key : String
  chords : List (Option String)
deriving DecidableEq, Repr

/-- Constructor `new ProgressionBuilder(key)`. -/
def mkBuilderWith (key : String) : Progression :=
  { key := key, chords := [] }

/-- Constructor `new ProgressionBuilder()` with the default key `C major`. -/
def mkBuilder : Progression := mkBuilderWith "C major"

/-- The constant `NUM_SUGGESTIONS = 12`. -/
def NUM_SUGGESTIONS : Nat := 12

/-- Model of the private `validatePosition` method: positions outside
`[0, chords.length)` throw `Invalid position: ...`, whose message cites the
offending index and `chords.length - 1`. -/
def validatePosition (prog : Progression) (position : Int) : Except PBError Unit :=
  if position < 0 ∨ position ≥ (prog.chords.length : Int) then
    .error (.invalidPosition position ((prog.chords.length : Int) - 1))
  else
    .ok ()

/-- Model of `setKey`: replaces the key unconditionally. -/
def setKey (prog : Progression) (key : String) : Progression :=
  { prog with key := key }

/-- Model of `addSlot()` with the position argument omitted:
`chords.push(null)`. -/
def addSlot (prog : Progression) : Progression :=
  { prog with chords := prog.chords ++ [none] }

/-- Model of `addSlot(position)` with an explicit position: validate, then
`chords.splice(position, 0, null)` (insert an empty slot at `position`). -/
def addSlotAt (prog : Progression) (position : Int) : Except PBError Progression :=
  match validatePosition prog position with
  | .error e => .error e
  | .ok _ =>
      .ok { prog with
            chords := prog.chords.take position.toNat ++ none :: prog.chords.drop position.toNat }

/-- Model of `addChord(position, chord)`: validate, then overwrite the slot
(`chords[position] = chord`).  The chord string itself is not validated. -/
def addChord (prog : Progression) (position : Int) (chord : String) : Except PBError Progression :=
  match validatePosition prog position with
  | .error e => .error e
  | .ok _ => .ok { prog with chords := prog.chords.set position.toNat (some chord) }

/-- Model of `removeSlot(position)`: validate, then
`chords.splice(position, 1)` (delete the slot). -/
def removeSlot (prog : Progression) (position : Int) : Except PBError Progression :=
  match validatePosition prog position with
  | .error e => .error e
  | .ok _ => .ok { prog with chords := prog.chords.eraseIdx position.toNat }

/-- Model of `removeChord(position)`: validate, then clear the slot
(`chords[position] = null`). -/
def removeChord (prog : Progression) (position : Int) : Except PBError Progression :=
  match validatePosition prog position with
  | .error e => .error e
  | .ok _ => .ok { prog with chords := prog.chords.set position.toNat none }

/-!
### The chord-notation grammar CHORD_PATTERN

The regular expression from the source is

  `^([A-G][#b]?)(?:maj7?|M7?|min7?|m7?|dim7?|aug7?)?(\d+)?((?:sus\d+|add\d+|b\d+|#\d+)*)?(\/[A-G][#b]?)?$`

An anchored backtracking match succeeds iff the string decomposes as
root, optional quality token, optional digit run, a sequence of modifier
tokens and an optional slash-bass.  Greedy digit runs lose nothing because
no following token can start with a digit, so the only non-deterministic
choice points are the optional root accidental and the quality token; the
matcher below tries those explicitly.
-/

/-- Root and bass note letter class `[A-G]` (codepoints 65 to 71). -/
def isNoteLetter (c : Char) : Bool := 65 ≤ c.toNat && c.toNat ≤ 71

/-- Accidental class `[#b]`. -/
def isAccidental (c : Char) : Bool := c = '#' || c = 'b'

/-- Digit class `\d` (codepoints 48 to 57). -/
def isAsciiDigit (c : Char) : Bool := 48 ≤ c.toNat && c.toNat ≤ 57

/-- Tail group `(\/[A-G][#b]?)?$` of CHORD_PATTERN: either the end of the
string, or a slash, a note letter and an optional accidental. -/
def slashEnd (cs : List Char) : Bool :=
  match cs with
  | [] => true
  | c :: rest =>
      c = '/' &&
        (match rest with
         | [l] => isNoteLetter l
         | [l, a] => isNoteLetter l && isAccidental a
         | _ => false)

/-- Modifier group `((?:sus\d+|add\d+|b\d+|#\d+)*)?` of CHORD_PATTERN
followed by `slashEnd`.  Each modifier token consumes its whole digit run
(no later token can start with a digit).  The fuel keeps the recursion
structural; every step consumes at least two characters, so fuel equal to
the list length is always sufficient. -/
def modsSlash : Nat → List Char → Bool
  | 0, cs => slashEnd cs
  | fuel + 1, cs =>
      match cs with
      | c1 :: c2 :: c3 :: c4 :: rest =>
          if c1 = 's' && c2 = 'u' && c3 = 's' then
            isAsciiDigit c4 && modsSlash fuel (rest.dropWhile isAsciiDigit)
          else if c1 = 'a' && c2 = 'd' && c3 = 'd' then
            isAsciiDigit c4 && modsSlash fuel (rest.dropWhile isAsciiDigit)
          else if c1 = 'b' || c1 = '#' then
            isAsciiDigit c2 && modsSlash fuel ((c3 :: c4 :: rest).dropWhile isAsciiDigit)
          else slashEnd cs
      | c1 :: c2 :: rest =>
          if c1 = 'b' || c1 = '#' then
            isAsciiDigit c2 && modsSlash fuel (rest.dropWhile isAsciiDigit)
          else slashEnd cs
      | _ => slashEnd cs

/-- The thirteen ways the optional quality group
`(?:maj7?|M7?|min7?|m7?|dim7?|aug7?)?` can match, including the empty
match. -/
def qualityTokens : List (List Char) :=
  [['m', 'a', 'j', '7'], ['m', 'a', 'j'], ['M', '7'], ['M'],
   ['m', 'i', 'n', '7'], ['m', 'i', 'n'], ['m', '7'], ['m'],
   ['d', 'i', 'm', '7'], ['d', 'i', 'm'], ['a', 'u', 'g', '7'], ['a', 'u', 'g'], []]

/-- Greedy digit-run extension `(\d+)?` followed by the modifier and slash
groups (fuel: every `modsSlash` step consumes at least two characters, so
the length of the remainder suffices). -/
def modsAfterExt (cs : List Char) : Bool :=
  modsSlash (cs.dropWhile isAsciiDigit).length (cs.dropWhile isAsciiDigit)

/-- Remainder of CHORD_PATTERN after the root group: some quality token is a
prefix, and after it the greedy digit-run extension `(\d+)?`, the modifier
tokens and the slash group match the rest. -/
def afterRoot (cs : List Char) : Bool :=
  qualityTokens.any fun q =>
    q.isPrefixOf cs && modsAfterExt (cs.drop q.length)

/-- Truthiness of `chord.match(CHORD_PATTERN)`: the whole string matches the
anchored pattern.  The root is a note letter with an optional accidental
(both alternatives are tried, as backtracking does). -/
def chordMatches (s : String) : Bool :=
  match s.toList with
  | [] => false
  | l :: rest =>
      isNoteLetter l &&
        (afterRoot rest ||
          (match rest with
           | a :: rest2 => isAccidental a && afterRoot rest2
           | [] => false))

/-!
### Extraction of the first JSON object from the response text

`parseChordSuggestions` first runs
`text.match(/\x7b\s*"chordSuggestions"\s*:\s*\[[\s\S]*?\]\s*\x7d/)`:
the leftmost position where the pattern matches wins, and the lazy
`[\s\S]*?` stops at the first `]` that is followed by whitespace and a
closing brace.
-/

/-- Whitespace class of the JS regex token `\s` (ASCII whitespace plus the
Unicode space characters recognised by JS). -/
def isJsWs (c : Char) : Bool :=
  c = ' ' || c = '\t' || c = '\n' || c = '\r' || c = '\x0b' || c = '\x0c' ||
  c = '\u00a0' || c = '\u1680' || (0x2000 ≤ c.toNat && c.toNat ≤ 0x200a) ||
  c = '\u2028' || c = '\u2029' || c = '\u202f' || c = '\u205f' || c = '\u3000' ||
  c = '\ufeff'

/-- Lazy tail `[\s\S]*?\]\s*\x7d` of the extraction regex: scan forward for
the first `]` that is followed by a whitespace run and a closing brace, and
return all characters consumed through that brace. -/
def scanClose : List Char → Option (List Char)
  | [] => none
  | c :: cs =>
      if c = ']' then
        match cs.dropWhile isJsWs with
        | d :: _ =>
            if d = '\x7d' then some (']' :: (cs.takeWhile isJsWs ++ ['\x7d']))
            else match scanClose cs with
                 | some t => some (c :: t)
                 | none => none
        | [] =>
            match scanClose cs with
            | some t => some (c :: t)
            | none => none
      else
        match scanClose cs with
        | some t => some (c :: t)
        | none => none

/-- The characters of the key name `chordSuggestions`. -/
def keyBody : List Char :=
  ['c', 'h', 'o', 'r', 'd', 'S', 'u', 'g', 'g', 'e', 's', 't', 'i', 'o', 'n', 's']

/-- The key literal `"chordSuggestions"` with its quotes, as characters. -/
def keyLit : List Char := '"' :: keyBody ++ ['"']

/-- Attempt to match the extraction regex starting at the head of `cs`,
returning the matched characters: an opening brace, whitespace, the quoted
key, whitespace, a colon, whitespace, an opening bracket, and the lazy tail
found by `scanClose`. -/
def matchObjAt (cs : List Char) : Option (List Char) :=
  match cs with
  | [] => none
  | c :: r1 =>
      if c = '\x7b' then
        let w1 := r1.takeWhile isJsWs
        let r2 := r1.dropWhile isJsWs
        if keyLit.isPrefixOf r2 then
          let r3 := r2.drop keyLit.length
          let w2 := r3.takeWhile isJsWs
          match r3.dropWhile isJsWs with
          | d :: r5 =>
              if d = ':' then
                let w3 := r5.takeWhile isJsWs
                match r5.dropWhile isJsWs with
                | e :: r7 =>
                    if e = '[' then
                      match scanClose r7 with
                      | some body =>
                          some ('\x7b' :: (w1 ++ keyLit ++ w2 ++ ':' :: w3 ++ '[' :: body))
                      | none => none
                    else none
                | [] => none
              else none
          | [] => none
        else none
      else none

/-- The `text.match(...)` call: try the pattern at every position from the
left and return the first (leftmost) match. -/
def findFirstMatch : List Char → Option (List Char)
  | [] => none
  | c :: cs =>
      match matchObjAt (c :: cs) with
      | some m => some m
      | none => findFirstMatch cs

/-!
### Model of JSON.parse
-/

/-- Parsed JSON values.  Number values keep their lexeme: the pipeline never
inspects a number, so the float conversion of `JSON.parse` is irrelevant
here. -/
inductive Json where
  | str (s : String)
  | num (lexeme : String)
  | boolean (b : Bool)
  | null
  | arr (elements : List Json)
  | obj (fields : List (String × Json))

/-- Whitespace accepted by the JSON grammar (strictly smaller than the
regex class `\s`: form feed, vertical tab and the Unicode spaces are not
JSON whitespace). -/
def isJsonWs (c : Char) : Bool :=
  c = ' ' || c = '\t' || c = '\n' || c = '\r'

/-- Skip JSON whitespace. -/
def skipJsonWs (cs : List Char) : List Char := cs.dropWhile isJsonWs

/-- Value of a hexadecimal digit. -/
def hexVal (c : Char) : Option Nat :=
  if 48 ≤ c.toNat && c.toNat ≤ 57 then some (c.toNat - 48)
  else if 97 ≤ c.toNat && c.toNat ≤ 102 then some (c.toNat - 87)
  else if 65 ≤ c.toNat && c.toNat ≤ 70 then some (c.toNat - 55)
  else none

/-- Body of a JSON string literal, after the opening quote: stop at the
closing quote, decode the escape sequences, reject unescaped control
characters.  A `\u` escape is decoded with `Char.ofNat` (a lone surrogate
value falls back to the null character; JS would keep the lone surrogate,
a difference no claim can observe).  Every step consumes at least one
character and one unit of fuel, so fuel equal to the input length never
runs out (a missing closing quote exhausts the input first and fails, as
`JSON.parse` does). -/
def parseStringBody : Nat → List Char → Option (List Char × List Char)
  | 0, _ => none
  | _ + 1, [] => none
  | fuel + 1, c :: rest =>
      if c = '"' then some ([], rest)
      else if c = '\\' then
        match rest with
        | [] => none
        | e :: rest2 =>
            if e = '"' || e = '\\' || e = '/' then
              match parseStringBody fuel rest2 with
              | some (s, r) => some (e :: s, r)
              | none => none
            else if e = 'b' then
              match parseStringBody fuel rest2 with
              | some (s, r) => some ('\x08' :: s, r)
              | none => none
            else if e = 'f' then
              match parseStringBody fuel rest2 with
              | some (s, r) => some ('\x0c' :: s, r)
              | none => none
            else if e = 'n' then
              match parseStringBody fuel rest2 with
              | some (s, r) => some ('\n' :: s, r)
              | none => none
            else if e = 'r' then
              match parseStringBody fuel rest2 with
              | some (s, r) => some ('\r' :: s, r)
              | none => none
            else if e = 't' then
              match parseStringBody fuel rest2 with
              | some (s, r) => some ('\t' :: s, r)
              | none => none
            else if e = 'u' then
              match rest2 with
              | h1 :: h2 :: h3 :: h4 :: rest3 =>
                  match hexVal h1, hexVal h2, hexVal h3, hexVal h4 with
                  | some a, some b, some c2, some d =>
                      match parseStringBody fuel rest3 with
                      | some (s, r) =>
                          some (Char.ofNat (((a * 16 + b) * 16 + c2) * 16 + d) :: s, r)
                      | none => none
                  | _, _, _, _ => none
              | _ => none
            else none
      else if c.toNat < 32 then none
      else
        match parseStringBody fuel rest with
        | some (s, r) => some (c :: s, r)
        | none => none

/-- Fractional part `(\.\d+)?` of a JSON number. -/
def parseFrac (cs : List Char) : Option (List Char × List Char) :=
  match cs with
  | '.' :: r =>
      let ds := r.takeWhile isAsciiDigit
      if ds.isEmpty then none else some ('.' :: ds, r.dropWhile isAsciiDigit)
  | _ => some ([], cs)

/-- Exponent part `([eE][+-]?\d+)?` of a JSON number. -/
def parseExp (cs : List Char) : Option (List Char × List Char) :=
  match cs with
  | c :: r =>
      if c = 'e' || c = 'E' then
        let (sgn, r1) :=
          match r with
          | '+' :: r2 => (['+'], r2)
          | '-' :: r2 => (['-'], r2)
          | _ => (([] : List Char), r)
        let ds := r1.takeWhile isAsciiDigit
        if ds.isEmpty then none else some (c :: sgn ++ ds, r1.dropWhile isAsciiDigit)
      else some ([], cs)
  | [] => some ([], cs)

/-- JSON number lexeme `-?(0|[1-9]\d*)(\.\d+)?([eE][+-]?\d+)?`. -/
def parseNumberLex (cs : List Char) : Option (List Char × List Char) :=
  let (sign, cs1) :=
    match cs with
    | '-' :: r => (['-'], r)
    | _ => (([] : List Char), cs)
  let intPart : Option (List Char × List Char) :=
    match cs1 with
    | '0' :: r => some (['0'], r)
    | c :: r =>
        if isAsciiDigit c then some (c :: r.takeWhile isAsciiDigit, r.dropWhile isAsciiDigit)
        else none
    | [] => none
  match intPart with
  | none => none
  | some (ip, r1) =>
      match parseFrac r1 with
      | none => none
      | some (fp, r2) =>
          match parseExp r2 with
          | none => none
          | some (ep, r3) => some (sign ++ ip ++ fp ++ ep, r3)

/-- Task selector for the single fueled JSON parsing recursion. -/
inductive ParseTask where
  | value
  | arrTail
  | objPairs
deriving DecidableEq, Repr

/-- Partial results of the JSON parsing recursion. -/
inductive ParsePart where
  | value (v : Json)
  | elems (vs : List Json)
  | fields (ps : List (String × Json))

/-- The JSON grammar as one fueled recursion (structural on the fuel, so the
kernel can evaluate it).  `.value` parses a single value after whitespace;
`.arrTail` parses the non-empty element list of an array up to and including
the closing bracket; `.objPairs` parses the non-empty member list of an
object up to and including the closing brace. -/
def parseRec : Nat → ParseTask → List Char → Option (ParsePart × List Char)
  | 0, _, _ => none
  | fuel + 1, .value, cs =>
      match skipJsonWs cs with
      | [] => none
      | c :: rest =>
          if c = '"' then
            match parseStringBody rest.length rest with
            | some (s, r) => some (.value (.str (String.mk s)), r)
            | none => none
          else if c = '\x7b' then
            match skipJsonWs rest with
            | '\x7d' :: r2 => some (.value (.obj []), r2)
            | _ =>
                match parseRec fuel .objPairs rest with
                | some (.fields ps, r) => some (.value (.obj ps), r)
                | _ => none
          else if c = '[' then
            match skipJsonWs rest with
            | ']' :: r2 => some (.value (.arr []), r2)
            | _ =>
                match parseRec fuel .arrTail rest with
                | some (.elems vs, r) => some (.value (.arr vs), r)
                | _ => none
          else if c = 't' then
            match rest with
            | 'r' :: 'u' :: 'e' :: r => some (.value (.boolean true), r)
            | _ => none
          else if c = 'f' then
            match rest with
            | 'a' :: 'l' :: 's' :: 'e' :: r => some (.value (.boolean false), r)
            | _ => none
          else if c = 'n' then
            match rest with
            | 'u' :: 'l' :: 'l' :: r => some (.value .null, r)
            | _ => none
          else
            match parseNumberLex (c :: rest) with
            | some (lex, r) => some (.value (.num (String.mk lex)), r)
            | none => none
  | fuel + 1, .arrTail, cs =>
      match parseRec fuel .value cs with
      | some (.value v, r) =>
          (match skipJsonWs r with
           | ',' :: r2 =>
               (match parseRec fuel .arrTail r2 with
                | some (.elems vs, r3) => some (.elems (v :: vs), r3)
                | _ => none)
           | ']' :: r2 => some (.elems [v], r2)
           | _ => none)
      | _ => none
  | fuel + 1, .objPairs, cs =>
      match skipJsonWs cs with
      | c :: rest =>
          if c = '"' then
            match parseStringBody rest.length rest with
            | some (k, r1) =>
                (match skipJsonWs r1 with
                 | ':' :: r2 =>
                     (match parseRec fuel .value r2 with
                      | some (.value v, r3) =>
                          (match skipJsonWs r3 with
                           | ',' :: r4 =>
                               (match parseRec fuel .objPairs r4 with
                                | some (.fields ps, r5) =>
                                    some (.fields ((String.mk k, v) :: ps), r5)
                                | _ => none)
                           | '\x7d' :: r4 => some (.fields [(String.mk k, v)], r4)
                           | _ => none)
                      | _ => none)
                 | _ => none)
            | none => none
          else none
      | [] => none

/-- Model of `JSON.parse`: parse one value, then require that only
whitespace remains.  Fuel `2 * length + 2` cannot run out: every second
recursive call strictly consumes input. -/
def jsonParse (s : String) : Option Json :=
  match parseRec (2 * s.toList.length + 2) .value s.toList with
  | some (.value v, r) => if skipJsonWs r = [] then some v else none
  | _ => none

/-!
### The response-validation pipeline
-/

/-- JS member access `parsed.chordSuggestions` on an object produced by
`JSON.parse`: with duplicate keys the last occurrence wins. -/
def lookupField (fields : List (String × Json)) (key : String) : Option Json :=
  match fields with
  | [] => none
  | (k, v) :: rest =>
      match lookupField rest key with
      | some r => some r
      | none => if k = key then some v else none

/-- The per-element loop of `parseChordSuggestions`: every element must
match CHORD_PATTERN, and the first failing element aborts with
`Invalid chord suggestion: <value>`.  A non-string element would make
`chord.match` throw a TypeError in JS; that is only reachable when the
response smuggles a duplicate `chordSuggestions` key past the lazy regex,
which no claim exercises. -/
def checkChords : List Json → Except PBError (List String)
  | [] => .ok []
  | .str c :: rest =>
      if chordMatches c then
        match checkChords rest with
        | .ok cs => .ok (c :: cs)
        | .error e => .error e
      else .error (.invalidChord c)
  | _ :: _ => .error .typeError

/-- Model of the private `parseChordSuggestions` method: extract the first
regex match (else `Invalid JSON response format`), `JSON.parse` it (a parse
failure propagates as a SyntaxError), read `.chordSuggestions`, check the
element count against NUM_SUGGESTIONS (else
`Invalid number of chord suggestions: <n>`), then check every element
against CHORD_PATTERN.  On success the validated array is returned
verbatim.  A non-object parse result or a non-array `chordSuggestions`
value is a JS TypeError at the subsequent member access; both are only
reachable through duplicate keys smuggled past the lazy regex, which the
extraction shape rules out for every input a claim mentions. -/
def parseChordSuggestions (text : String) : Except PBError (List String) :=
  match findFirstMatch text.toList with
  | none => .error .invalidFormat
  | some matched =>
      match jsonParse (String.mk matched) with
      | none => .error .jsonSyntaxError
      | some (.obj fields) =>
          match lookupField fields "chordSuggestions" with
          | some (.arr elems) =>
              if elems.length ≠ NUM_SUGGESTIONS then .error (.invalidCount elems.length)
              else checkChords elems
          | some _ => .error .typeError
          | none => .error .typeError
      | some _ => .error .typeError

/-- JS coercion of the chords array inside a template literal:
`String(chords)` joins the elements with commas and renders `null` as the
empty string. -/
def chordsToJsString (chords : List (Option String)) : String :=
  String.intercalate "," (chords.map fun c =>
    match c with
    | some s => s
    | none => "")

/-- The instruction text built by the private `createSuggestionPrompt`
method (a template literal; interpolations are rendered as JS does). -/
def createSuggestionPrompt (prog : Progression) (position : Int) : String :=
  "\nYou are an expert harmony assistant specializing in Western tonal music (pop, rock, folk, and classical).\nYour task is to suggest chords that fit harmonically within a given chord progression and key. Focus on common, simple chords rather than complex or extended jazz chords.\n\nINPUT INFORMATION:\nKey: "
  ++ prog.key
  ++ "\nProgression: "
  ++ chordsToJsString prog.chords
  ++ "\nPosition: "
  ++ toString position
  ++ "\n\nThe chord progression is written using standard music notation (e.g., \"C\", \"Am\", \"F\", \"G\", or null if a slot is empty).\nPositions in the chord progression are zero-indexed. Position 0 is the first chord, position 1 is the second chord, etc.\nThe key defines the tonal center for the harmonic context.  \nThere may be multiple empty slots (null values) in the progression.  \nThe chord at the specified Position may or may not already be filled — provide suggestions anyway, ignoring the current chord at that position.\n\nYOUR TASK:\nReturn "
  ++ toString NUM_SUGGESTIONS
  ++ " musically coherent chord suggestions, ordered from most to least preferred for that position in this progression and key.\n\nGUIDELINES:\n- Output must be a JSON object.\n- Use standard chord notation: \"Cmaj7\", \"Am7b5\", \"E7\", \"F#dim\", \"G9\", etc.\n- Each chord should make sense in the context of the given key and surrounding chords.\n- You may include both diatonic chords (from the key) and non-diatonic chords (e.g. secondary dominants, borrowed chords, tritone substitutions).\n- The ordering should reflect musical likelihood or smoothness of progression (voice leading and harmonic function).\n- Avoid duplicates and overly complex symbols (e.g. \"C13#11b9\").\n- Assume 12 semitone equal temperament and common Western harmony.\n\nOUTPUT FORMAT:\n\x7b\n    \"chordSuggestions\": [\"list of "
  ++ toString NUM_SUGGESTIONS
  ++ " chords in standard music notation\"]\n\x7d\nOutput only valid JSON, no extra text, no markdown, no trailing commas.\n"

/-- Model of `suggestChords`: validate the position, build the prompt, call
the LLM collaborator (whose failure the catch block rethrows unchanged),
then parse and validate the response. -/
def suggestChords (prog : Progression) (llm : String → Except PBError String)
    (position : Int) : Except PBError (List String) :=
  match validatePosition prog position with
  | .error e => .error e
  | .ok _ =>
      match llm (createSuggestionPrompt prog position) with
      | .error e => .error e
      | .ok text => parseChordSuggestions text

/-!
### Canonical well-formed responses

The theorems below quantify over the chord lists of a well-formed response
`\x7b"chordSuggestions": [...]\x7d`; these two definitions build that
response text.
-/

/-- The comma-separated quoted elements of a well-formed response. -/
def elemsChars : List String → List Char
  | [] => []
  | [c] => '"' :: (c.toList ++ ['"'])
  | c :: rest => '"' :: (c.toList ++ '"' :: ',' :: ' ' :: elemsChars rest)

/-- A well-formed response `\x7b"chordSuggestions": [c1, ..., cn]\x7d`, as
characters. -/
def renderChars (chords : List String) : List Char :=
  '\x7b' :: (keyLit ++ ':' :: ' ' :: '[' :: (elemsChars chords ++ [']', '\x7d']))

/-- A well-formed response as a string. -/
def renderSuggestionsJson (chords : List String) : String :=
  String.mk (renderChars chords)

/-!
### Theorems about the Progression Store
-/

/-- Characterisation of `validatePosition` on an out-of-range position. -/
theorem validatePosition_out (prog : Progression) (position : Int)
    (h : position < 0 ∨ (prog.chords.length : Int) ≤ position) :
    validatePosition prog position =
      .error (.invalidPosition position ((prog.chords.length : Int) - 1)) := by
  unfold validatePosition
  exact if_pos h

/-- Characterisation of `validatePosition` on an in-range position. -/
theorem validatePosition_ok (prog : Progression) (position : Int)
    (h0 : 0 ≤ position) (hl : position < (prog.chords.length : Int)) :
    validatePosition prog position = .ok () := by
  unfold validatePosition
  rw [if_neg]
  omega

/-- C5: every bounds-checked operation, applied at a position outside
`[0, length)`, fails with the `Invalid position` error citing the offending
index and the valid range; since the operations are functions from the old
state, an error result leaves the progression (key and chords) exactly
unchanged. -/
theorem out_of_range_ops_fail (prog : Progression) (position : Int) (chord : String)
    (h : position < 0 ∨ (prog.chords.length : Int) ≤ position) :
    addSlotAt prog position =
        .error (.invalidPosition position ((prog.chords.length : Int) - 1)) ∧
    addChord prog position chord =
        .error (.invalidPosition position ((prog.chords.length : Int) - 1)) ∧
    removeSlot prog position =
        .error (.invalidPosition position ((prog.chords.length : Int) - 1)) ∧
    removeChord prog position =
        .error (.invalidPosition position ((prog.chords.length : Int) - 1)) := by
  have hv := validatePosition_out prog position h
  exact ⟨by simp [addSlotAt, hv], by simp [addChord, hv],
         by simp [removeSlot, hv], by simp [removeChord, hv]⟩

/-- Witness for `out_of_range_ops_fail` at a concrete progression and
position. -/
theorem out_of_range_ops_fail_witness :
    addSlotAt { key := "C major", chords := [some "C"] } 5 =
        .error (.invalidPosition 5 0) ∧
    addChord { key := "C major", chords := [some "C"] } 5 "G" =
        .error (.invalidPosition 5 0) ∧
    removeSlot { key := "C major", chords := [some "C"] } 5 =
        .error (.invalidPosition 5 0) ∧
    removeChord { key := "C major", chords := [some "C"] } 5 =
        .error (.invalidPosition 5 0) :=
  out_of_range_ops_fail { key := "C major", chords := [some "C"] } 5 "G" (by decide)

/-- C6: `addSlot(length)` — inserting at the current end via an explicit
position — is rejected with `Invalid position`, because the bound is checked
against the sequence before insertion; only the no-argument `addSlot()`
form extends the sequence, by appending an empty slot. -/
theorem addSlotAt_end_rejected (prog : Progression) :
    addSlotAt prog (prog.chords.length : Int) =
      .error (.invalidPosition (prog.chords.length : Int) ((prog.chords.length : Int) - 1)) ∧
    (addSlot prog).chords = prog.chords ++ [none] := by
  constructor
  · have hv := validatePosition_out prog (prog.chords.length : Int) (Or.inr le_rfl)
    simp [addSlotAt, hv]
  · rfl

/-- C7: for every progression state — the empty one included — the
no-argument `addSlot()` grows the sequence by exactly one, appending an
empty slot and leaving all prior slots unchanged; and `removeSlot` at any
valid position shrinks it by exactly one, keeping earlier slots and
shifting all subsequent elements down by one index. -/
theorem addSlot_appends_removeSlot_shifts (prog : Progression) :
    (addSlot prog).chords.length = prog.chords.length + 1 ∧
    (addSlot prog).chords = prog.chords ++ [none] ∧
    ∀ position : Int, 0 ≤ position → position < (prog.chords.length : Int) →
      removeSlot prog position =
        .ok { prog with chords := prog.chords.eraseIdx position.toNat } ∧
      (prog.chords.eraseIdx position.toNat).length + 1 = prog.chords.length ∧
      (∀ i : Nat, i < position.toNat →
        (prog.chords.eraseIdx position.toNat)[i]? = prog.chords[i]?) ∧
      (∀ i : Nat, position.toNat ≤ i →
        (prog.chords.eraseIdx position.toNat)[i]? = prog.chords[i + 1]?) := by
  refine ⟨by simp [addSlot], rfl, fun position h0 hl => ?_⟩
  have hpos : position.toNat < prog.chords.length := by omega
  refine ⟨?_, ?_, ?_, ?_⟩
  · simp [removeSlot, validatePosition_ok prog position h0 hl]
  · rw [List.length_eraseIdx, if_pos hpos]
    omega
  · intro i hi
    rw [List.eraseIdx_eq_take_drop_succ, List.getElem?_append, List.length_take]
    rw [if_pos (by omega), List.getElem?_take, if_pos hi]
  · intro i hi
    rw [List.eraseIdx_eq_take_drop_succ, List.getElem?_append_right
      (by rw [List.length_take]; omega), List.getElem?_drop, List.length_take]
    congr 1
    omega

/-- Witness for `addSlot_appends_removeSlot_shifts`: the append part at the
empty default progression, and the removal part at a concrete three-slot
progression and position, discharging the bounds hypotheses. -/
theorem addSlot_appends_removeSlot_shifts_witness :
    (addSlot mkBuilder).chords.length = 0 + 1 ∧
    (addSlot mkBuilder).chords = [] ++ [none] ∧
    (removeSlot { key := "C major", chords := [some "C", none, some "G"] } 1 =
      .ok { key := "C major",
            chords := ([some "C", none, some "G"] : List (Option String)).eraseIdx 1 } ∧
     (([some "C", none, some "G"] : List (Option String)).eraseIdx 1).length + 1 = 3 ∧
     (∀ i : Nat, i < (1 : Int).toNat →
       (([some "C", none, some "G"] : List (Option String)).eraseIdx 1)[i]? =
         ([some "C", none, some "G"] : List (Option String))[i]?) ∧
     (∀ i : Nat, (1 : Int).toNat ≤ i →
       (([some "C", none, some "G"] : List (Option String)).eraseIdx 1)[i]? =
         ([some "C", none, some "G"] : List (Option String))[i + 1]?)) :=
  ⟨(addSlot_appends_removeSlot_shifts mkBuilder).1,
   (addSlot_appends_removeSlot_shifts mkBuilder).2.1,
   (addSlot_appends_removeSlot_shifts
      { key := "C major", chords := [some "C", none, some "G"] }).2.2
     1 (by decide) (by decide)⟩

/-- C8: at a valid position, `addChord` and `removeChord` modify only the
addressed slot: the key, the length and every other slot are unchanged. -/
theorem addChord_removeChord_frame (prog : Progression) (position : Int) (chord : String)
    (h0 : 0 ≤ position) (hl : position < (prog.chords.length : Int)) :
    addChord prog position chord =
      .ok { prog with chords := prog.chords.set position.toNat (some chord) } ∧
    removeChord prog position =
      .ok { prog with chords := prog.chords.set position.toNat none } ∧
    (prog.chords.set position.toNat (some chord)).length = prog.chords.length ∧
    (prog.chords.set position.toNat none).length = prog.chords.length ∧
    (prog.chords.set position.toNat (some chord))[position.toNat]? = some (some chord) ∧
    (prog.chords.set position.toNat none)[position.toNat]? = some none ∧
    (∀ i : Nat, i ≠ position.toNat →
      (prog.chords.set position.toNat (some chord))[i]? = prog.chords[i]? ∧
      (prog.chords.set position.toNat none)[i]? = prog.chords[i]?) := by
  have hpos : position.toNat < prog.chords.length := by omega
  have hv := validatePosition_ok prog position h0 hl
  refine ⟨by simp [addChord, hv], by simp [removeChord, hv], by simp, by simp, ?_, ?_, ?_⟩
  · rw [List.getElem?_set, if_pos rfl, if_pos hpos]
  · rw [List.getElem?_set, if_pos rfl, if_pos hpos]
  · intro i hi
    exact ⟨List.getElem?_set_ne (by omega), List.getElem?_set_ne (by omega)⟩

/-- Witness for `addChord_removeChord_frame` at a concrete progression,
position and chord. -/
theorem addChord_removeChord_frame_witness :
    addChord { key := "C major", chords := [some "C", none, some "G"] } 1 "Am" =
      .ok { key := "C major",
            chords := ([some "C", none, some "G"] : List (Option String)).set 1 (some "Am") } ∧
    removeChord { key := "C major", chords := [some "C", none, some "G"] } 1 =
      .ok { key := "C major",
            chords := ([some "C", none, some "G"] : List (Option String)).set 1 none } ∧
    (([some "C", none, some "G"] : List (Option String)).set 1 (some "Am")).length = 3 ∧
    (([some "C", none, some "G"] : List (Option String)).set 1 none).length = 3 ∧
    (([some "C", none, some "G"] : List (Option String)).set 1 (some "Am"))[(1 : Int).toNat]? =
      some (some "Am") ∧
    (([some "C", none, some "G"] : List (Option String)).set 1 none)[(1 : Int).toNat]? =
      some none ∧
    (∀ i : Nat, i ≠ (1 : Int).toNat →
      (([some "C", none, some "G"] : List (Option String)).set 1 (some "Am"))[i]? =
        ([some "C", none, some "G"] : List (Option String))[i]? ∧
      (([some "C", none, some "G"] : List (Option String)).set 1 none)[i]? =
        ([some "C", none, some "G"] : List (Option String))[i]?) :=
  addChord_removeChord_frame
    { key := "C major", chords := [some "C", none, some "G"] } 1 "Am" (by decide) (by decide)

/-- C10: a builder constructed with no argument has key `C major` and an
empty chord sequence, so every positioned operation — `addChord`,
`removeSlot`, `removeChord`, `addSlot` with an explicit position, and
`suggestChords` — fails with `Invalid position` for every position (the
cited valid range is `0` to `-1`). -/
theorem mkBuilder_default_and_all_positions_invalid :
    mkBuilder.key = "C major" ∧ mkBuilder.chords = [] ∧
    ∀ (position : Int) (chord : String) (llm : String → Except PBError String),
      addSlotAt mkBuilder position = .error (.invalidPosition position (-1)) ∧
      addChord mkBuilder position chord = .error (.invalidPosition position (-1)) ∧
      removeSlot mkBuilder position = .error (.invalidPosition position (-1)) ∧
      removeChord mkBuilder position = .error (.invalidPosition position (-1)) ∧
      suggestChords mkBuilder llm position = .error (.invalidPosition position (-1)) := by
  refine ⟨rfl, rfl, fun position chord llm => ?_⟩
  have h : position < 0 ∨ ((mkBuilder.chords.length : Int)) ≤ position := by
    have : mkBuilder.chords.length = 0 := rfl
    omega
  have hv := validatePosition_out mkBuilder position h
  rw [show ((mkBuilder.chords.length : Int) - 1) = -1 by decide] at hv
  exact ⟨by simp [addSlotAt, hv], by simp [addChord, hv], by simp [removeSlot, hv],
         by simp [removeChord, hv], by simp [suggestChords, hv]⟩

/-!
### Character safety of grammar-conforming chords

Every string accepted by CHORD_PATTERN is built from note letters,
accidentals, digits, a slash and the letters of the quality and modifier
tokens.  None of those characters is a quote, a backslash, a bracket, a
brace or whitespace, which is what lets a well-formed response embed the
chords verbatim in a JSON array.
-/

/-- Characters that can occur in a CHORD_PATTERN match: note letters,
accidentals (35 is the hash, 98 is the letter b), digits, the slash (47)
and the letters of the quality and modifier tokens
(m a j M i n d g u s = 109 97 106 77 105 110 100 103 117 115). -/
def goodChordChar (c : Char) : Bool :=
  isNoteLetter c || isAsciiDigit c || c.toNat = 35 || c.toNat = 98 || c.toNat = 47 ||
  c.toNat = 109 || c.toNat = 97 || c.toNat = 106 || c.toNat = 77 || c.toNat = 105 ||
  c.toNat = 110 || c.toNat = 100 || c.toNat = 103 || c.toNat = 117 || c.toNat = 115

/-- Codepoint bounds for the characters of a CHORD_PATTERN match: they are
printable ASCII and distinct from backslash (92), right bracket (93) and
quote (34). -/
theorem goodChordChar_toNat (c : Char) (h : goodChordChar c = true) :
    35 ≤ c.toNat ∧ c.toNat ≤ 117 ∧ c.toNat ≠ 92 ∧ c.toNat ≠ 93 ∧ c.toNat ≠ 34 := by
  simp only [goodChordChar, isNoteLetter, isAsciiDigit, Bool.or_eq_true,
    Bool.and_eq_true, decide_eq_true_eq, or_assoc] at h
  rcases h with h | h | h | h | h | h | h | h | h | h | h | h | h | h | h <;> omega

/-- Characters in the `\s` class have codepoints at most 32 or at least
160. -/
theorem isJsWs_toNat {c : Char} (h : isJsWs c = true) :
    c.toNat ≤ 32 ∨ 160 ≤ c.toNat := by
  simp only [isJsWs, Bool.or_eq_true, Bool.and_eq_true, decide_eq_true_eq, or_assoc] at h
  rcases h with h | h | h | h | h | h | h | h | h | h | h | h | h | h | h <;>
    first
      | omega
      | (subst h; decide)

/-- Characters in the JSON whitespace class have codepoints at most 32. -/
theorem isJsonWs_toNat {c : Char} (h : isJsonWs c = true) : c.toNat ≤ 32 := by
  simp only [isJsonWs, Bool.or_eq_true, decide_eq_true_eq, or_assoc] at h
  rcases h with h | h | h | h <;> (subst h; decide)

/-- The facts the pipeline proofs need about chord characters. -/
theorem goodChordChar_spec (c : Char) (h : goodChordChar c = true) :
    c ≠ '"' ∧ c ≠ '\\' ∧ c ≠ ']' ∧ 32 ≤ c.toNat ∧
    isJsonWs c = false ∧ isJsWs c = false := by
  obtain ⟨hlo, hhi, h92, h93, h34⟩ := goodChordChar_toNat c h
  have hne : ∀ d : Char, c.toNat ≠ d.toNat → c ≠ d :=
    fun d hd heq => hd (congrArg Char.toNat heq)
  refine ⟨hne _ (by rw [show (Char.toNat '"') = 34 from rfl]; omega),
          hne _ (by rw [show (Char.toNat '\\') = 92 from rfl]; omega),
          hne _ (by rw [show (Char.toNat ']') = 93 from rfl]; omega),
          by omega, ?_, ?_⟩
  · cases hw : isJsonWs c
    · rfl
    · have := isJsonWs_toNat hw
      omega
  · cases hw : isJsWs c
    · rfl
    · have := isJsWs_toNat hw
      omega

/-- Note letters are chord characters. -/
theorem noteLetter_good {c : Char} (h : isNoteLetter c = true) : goodChordChar c = true := by
  simp [goodChordChar, h]

/-- Accidentals are chord characters. -/
theorem accidental_good {c : Char} (h : isAccidental c = true) : goodChordChar c = true := by
  simp only [isAccidental, Bool.or_eq_true, decide_eq_true_eq] at h
  rcases h with rfl | rfl <;> decide

/-- Digits are chord characters. -/
theorem digit_good {c : Char} (h : isAsciiDigit c = true) : goodChordChar c = true := by
  simp [goodChordChar, h]

/-- A list whose digit-prefix is dropped consists of chord characters as
soon as the remainder does. -/
theorem dropWhile_digit_good {l : List Char}
    (h : ∀ c ∈ l.dropWhile isAsciiDigit, goodChordChar c = true) :
    ∀ c ∈ l, goodChordChar c = true := by
  intro c hc
  rw [← List.takeWhile_append_dropWhile isAsciiDigit l] at hc
  rcases List.mem_append.mp hc with hc | hc
  · exact digit_good (List.mem_takeWhile_imp hc)
  · exact h c hc

/-- Strings accepted by the slash-bass tail consist of chord characters. -/
theorem slashEnd_good (cs : List Char) (h : slashEnd cs = true) :
    ∀ c ∈ cs, goodChordChar c = true := by
  rcases cs with _ | ⟨c1, _ | ⟨l, _ | ⟨a, _ | ⟨x, tail⟩⟩⟩⟩
  · simp
  · simp [slashEnd] at h
  · simp only [slashEnd, Bool.and_eq_true, decide_eq_true_eq] at h
    obtain ⟨rfl, hl⟩ := h
    intro c hc
    rcases List.mem_cons.mp hc with rfl | hc
    · decide
    · rw [List.mem_singleton.mp hc]
      exact noteLetter_good hl
  · simp only [slashEnd, Bool.and_eq_true, decide_eq_true_eq] at h
    obtain ⟨rfl, hl, ha⟩ := h
    intro c hc
    rcases List.mem_cons.mp hc with rfl | hc
    · decide
    · rcases List.mem_cons.mp hc with rfl | hc
      · exact noteLetter_good hl
      · rw [List.mem_singleton.mp hc]
        exact accidental_good ha
  · simp [slashEnd] at h

/-- Strings accepted by the modifier-and-slash part consist of chord
characters. -/
theorem modsSlash_good (fuel : Nat) :
    ∀ cs, modsSlash fuel cs = true → ∀ c ∈ cs, goodChordChar c = true := by
  induction fuel with
  | zero => exact fun cs h => slashEnd_good cs h
  | succ f ih =>
    intro cs h
    rcases cs with _ | ⟨c1, _ | ⟨c2, _ | ⟨c3, _ | ⟨c4, rest⟩⟩⟩⟩
    · simp
    · exact slashEnd_good _ h
    · rw [show modsSlash (f + 1) [c1, c2] =
          (if c1 = 'b' || c1 = '#' then
            isAsciiDigit c2 && modsSlash f (List.dropWhile isAsciiDigit [])
           else slashEnd [c1, c2]) from rfl] at h
      split at h
      · rename_i hbs
        simp only [Bool.or_eq_true, decide_eq_true_eq] at hbs
        simp only [Bool.and_eq_true] at h
        intro c hc
        rcases List.mem_cons.mp hc with rfl | hc
        · rcases hbs with rfl | rfl <;> decide
        · rw [List.mem_singleton.mp hc]
          exact digit_good h.1
      · exact slashEnd_good _ h
    · rw [show modsSlash (f + 1) [c1, c2, c3] =
          (if c1 = 'b' || c1 = '#' then
            isAsciiDigit c2 && modsSlash f (List.dropWhile isAsciiDigit [c3])
           else slashEnd [c1, c2, c3]) from rfl] at h
      split at h
      · rename_i hbs
        simp only [Bool.or_eq_true, decide_eq_true_eq] at hbs
        simp only [Bool.and_eq_true] at h
        intro c hc
        rcases List.mem_cons.mp hc with rfl | hc
        · rcases hbs with rfl | rfl <;> decide
        · rcases List.mem_cons.mp hc with rfl | hc
          · exact digit_good h.1
          · exact dropWhile_digit_good (ih _ h.2) c hc
      · exact slashEnd_good _ h
    · rw [show modsSlash (f + 1) (c1 :: c2 :: c3 :: c4 :: rest) =
          (if c1 = 's' && c2 = 'u' && c3 = 's' then
            isAsciiDigit c4 && modsSlash f (rest.dropWhile isAsciiDigit)
           else if c1 = 'a' && c2 = 'd' && c3 = 'd' then
            isAsciiDigit c4 && modsSlash f (rest.dropWhile isAsciiDigit)
           else if c1 = 'b' || c1 = '#' then
            isAsciiDigit c2 && modsSlash f ((c3 :: c4 :: rest).dropWhile isAsciiDigit)
           else slashEnd (c1 :: c2 :: c3 :: c4 :: rest)) from rfl] at h
      split at h
      · rename_i hsus
        simp only [Bool.and_eq_true, decide_eq_true_eq] at hsus h
        obtain ⟨⟨rfl, rfl⟩, rfl⟩ := hsus
        intro c hc
        rcases List.mem_cons.mp hc with rfl | hc
        · decide
        · rcases List.mem_cons.mp hc with rfl | hc
          · decide
          · rcases List.mem_cons.mp hc with rfl | hc
            · decide
            · rcases List.mem_cons.mp hc with rfl | hc
              · exact digit_good h.1
              · exact dropWhile_digit_good (ih _ h.2) c hc
      · split at h
        · rename_i hadd
          simp only [Bool.and_eq_true, decide_eq_true_eq] at hadd h
          obtain ⟨⟨rfl, rfl⟩, rfl⟩ := hadd
          intro c hc
          rcases List.mem_cons.mp hc with rfl | hc
          · decide
          · rcases List.mem_cons.mp hc with rfl | hc
            · decide
            · rcases List.mem_cons.mp hc with rfl | hc
              · decide
              · rcases List.mem_cons.mp hc with rfl | hc
                · exact digit_good h.1
                · exact dropWhile_digit_good (ih _ h.2) c hc
        · split at h
          · rename_i hbs
            simp only [Bool.or_eq_true, decide_eq_true_eq] at hbs
            simp only [Bool.and_eq_true] at h
            intro c hc
            rcases List.mem_cons.mp hc with rfl | hc
            · rcases hbs with rfl | rfl <;> decide
            · rcases List.mem_cons.mp hc with rfl | hc
              · exact digit_good h.1
              · exact dropWhile_digit_good (ih _ h.2) c hc
          · exact slashEnd_good _ h

/-- Strings accepted after the extension group consist of chord
characters. -/
theorem modsAfterExt_good (cs : List Char) (h : modsAfterExt cs = true) :
    ∀ c ∈ cs, goodChordChar c = true :=
  dropWhile_digit_good (modsSlash_good _ _ h)

/-- Strings accepted after the root group consist of chord characters. -/
theorem afterRoot_good (cs : List Char) (h : afterRoot cs = true) :
    ∀ c ∈ cs, goodChordChar c = true := by
  simp only [afterRoot, List.any_eq_true, Bool.and_eq_true] at h
  obtain ⟨q, hq, hpre, hmods⟩ := h
  obtain ⟨t, rfl⟩ := List.isPrefixOf_iff_prefix.mp hpre
  rw [List.drop_left] at hmods
  intro c hc
  rcases List.mem_append.mp hc with hc | hc
  · have hqgood : q.all goodChordChar = true := by
      fin_cases hq <;> decide
    exact List.all_eq_true.mp hqgood c hc
  · exact modsAfterExt_good _ hmods c hc

/-- C-helper: every string accepted by CHORD_PATTERN consists of chord
characters. -/
theorem chordMatches_good (s : String) (h : chordMatches s = true) :
    ∀ c ∈ s.toList, goodChordChar c = true := by
  unfold chordMatches at h
  rcases hs : s.toList with _ | ⟨l, rest⟩
  · rw [hs] at h
    simp at h
  · rw [hs] at h
    simp only [Bool.and_eq_true, Bool.or_eq_true] at h
    obtain ⟨hl, hrest⟩ := h
    intro c hc
    rcases List.mem_cons.mp hc with rfl | hc
    · exact noteLetter_good hl
    · rcases hrest with hroot | hacc
      · exact afterRoot_good rest hroot c hc
      · rcases rest with _ | ⟨a, rest2⟩
        · simp at hc
        · simp only [Bool.and_eq_true] at hacc
          rcases List.mem_cons.mp hc with rfl | hc
          · exact accidental_good hacc.1
          · exact afterRoot_good rest2 hacc.2 c hc

/-!
### Extraction of a well-formed response

`findFirstMatch` finds exactly the rendered object when the text before it
contains no opening brace: the regex match can start only at a brace, and
inside the object the first bracket-then-brace is the rendered closing
pair, because chord characters are never brackets.
-/

/-- Elements of the rendered array are quotes, separators or chord
characters. -/
theorem elemsChars_good : ∀ chords, (∀ s ∈ chords, chordMatches s = true) →
    ∀ c ∈ elemsChars chords, c = '"' ∨ c = ',' ∨ c = ' ' ∨ goodChordChar c = true
  | [], _, c, hc => by simp [elemsChars] at hc
  | [s], h, c, hc => by
      simp only [elemsChars] at hc
      rcases List.mem_cons.mp hc with rfl | hc
      · exact Or.inl rfl
      · rcases List.mem_append.mp hc with hc | hc
        · exact Or.inr (Or.inr (Or.inr (chordMatches_good s (h s (by simp)) c hc)))
        · rw [List.mem_singleton.mp hc]
          exact Or.inl rfl
  | s :: s2 :: rest, h, c, hc => by
      simp only [elemsChars] at hc
      rcases List.mem_cons.mp hc with rfl | hc
      · exact Or.inl rfl
      · rcases List.mem_append.mp hc with hc | hc
        · exact Or.inr (Or.inr (Or.inr (chordMatches_good s (h s (by simp)) c hc)))
        · rcases List.mem_cons.mp hc with rfl | hc
          · exact Or.inl rfl
          · rcases List.mem_cons.mp hc with rfl | hc
            · exact Or.inr (Or.inl rfl)
            · rcases List.mem_cons.mp hc with rfl | hc
              · exact Or.inr (Or.inr (Or.inl rfl))
              · exact elemsChars_good (s2 :: rest)
                  (fun x hx => h x (List.mem_cons_of_mem _ hx)) c hc

/-- No element character of the rendered array is a closing bracket. -/
theorem elemsChars_ne_rbracket (chords : List String)
    (hch : ∀ s ∈ chords, chordMatches s = true) :
    ∀ c ∈ elemsChars chords, ¬ c = ']' := by
  intro c hc
  rcases elemsChars_good chords hch c hc with rfl | rfl | rfl | hg
  · decide
  · decide
  · decide
  · exact (goodChordChar_spec c hg).2.2.1

/-- The lazy scan runs past bracket-free characters and stops at the first
closing bracket followed by a brace. -/
theorem scanClose_append (xs rest : List Char) (h : ∀ c ∈ xs, ¬ c = ']') :
    scanClose (xs ++ ']' :: '\x7d' :: rest) = some (xs ++ [']', '\x7d']) := by
  induction xs with
  | nil =>
    have hrb : isJsWs '\x7d' = false := by decide
    simp [scanClose, List.dropWhile_cons, List.takeWhile_cons, hrb]
  | cons x xs ih =>
    have hx : ¬ x = ']' := h x (List.mem_cons_self x xs)
    have ih' := ih fun c hc => h c (List.mem_cons_of_mem _ hc)
    simp only [List.cons_append, scanClose, List.append_eq]
    rw [if_neg hx, ih']

/-- A match attempt at a character other than an opening brace fails. -/
theorem matchObjAt_not_brace {c : Char} (cs : List Char) (h : ¬ c = '\x7b') :
    matchObjAt (c :: cs) = none := by
  simp only [matchObjAt]
  rw [if_neg h]

/-- The quoted key starts with a quote, which is not whitespace. -/
theorem takeWhile_ws_keyLit (Y : List Char) : (keyLit ++ Y).takeWhile isJsWs = [] := by
  have h : isJsWs '"' = false := by decide
  simp [keyLit, List.takeWhile_cons, h]

/-- The quoted key starts with a quote, which is not whitespace. -/
theorem dropWhile_ws_keyLit (Y : List Char) : (keyLit ++ Y).dropWhile isJsWs = keyLit ++ Y := by
  have h : isJsWs '"' = false := by decide
  simp [keyLit, List.dropWhile_cons, h]

/-- The key literal is a (boolean) prefix of itself followed by anything. -/
theorem keyLit_isPrefixOf (Y : List Char) : keyLit.isPrefixOf (keyLit ++ Y) = true :=
  List.isPrefixOf_iff_prefix.mpr (List.prefix_append _ _)

/-- A match attempt at the head of a rendered response succeeds and matches
exactly the rendered text, whatever follows it. -/
theorem matchObjAt_render (chords : List String) (suffix : List Char)
    (hch : ∀ s ∈ chords, chordMatches s = true) :
    matchObjAt (renderChars chords ++ suffix) = some (renderChars chords) := by
  have hcolon : isJsWs ':' = false := by decide
  have hspace : isJsWs ' ' = true := by decide
  have hlb : isJsWs '[' = false := by decide
  have hscan := scanClose_append (elemsChars chords) suffix (elemsChars_ne_rbracket chords hch)
  rw [renderChars]
  simp only [List.cons_append, List.append_assoc, List.cons_append]
  simp only [matchObjAt, takeWhile_ws_keyLit, dropWhile_ws_keyLit, keyLit_isPrefixOf,
    if_true, List.drop_left, List.takeWhile_cons, List.dropWhile_cons, hcolon, hspace, hlb]
  simp [hscan, List.dropWhile_cons, List.takeWhile_cons, hspace, hlb]

/-- When a match attempt at the head succeeds, the leftmost search returns
its result. -/
theorem findFirstMatch_cons_of_match {c : Char} {cs m : List Char}
    (h : matchObjAt (c :: cs) = some m) : findFirstMatch (c :: cs) = some m := by
  simp only [findFirstMatch, h]

/-- The leftmost regex match of prefix text without opening braces, a
rendered response, and an arbitrary suffix is exactly the rendered
response. -/
theorem findFirstMatch_embedded (pre : List Char) (chords : List String) (suffix : List Char)
    (hpre : ∀ c ∈ pre, ¬ c = '\x7b')
    (hch : ∀ s ∈ chords, chordMatches s = true) :
    findFirstMatch (pre ++ (renderChars chords ++ suffix)) = some (renderChars chords) := by
  induction pre with
  | nil =>
    rw [List.nil_append]
    have hm := matchObjAt_render chords suffix hch
    rw [renderChars, List.cons_append] at hm
    have := findFirstMatch_cons_of_match hm
    rw [renderChars, List.cons_append]
    exact this
  | cons p pre ih =>
    have hp := hpre p (List.mem_cons_self p pre)
    have ih' := ih fun c hc => hpre c (List.mem_cons_of_mem _ hc)
    have hnone := matchObjAt_not_brace (pre ++ (renderChars chords ++ suffix)) hp
    simp only [List.cons_append, findFirstMatch, List.append_eq, hnone]
    exact ih'

/-!
### JSON parsing of a well-formed response

The step equations of `parseRec` hold definitionally because the recursion
is structural on the fuel; they let the round-trip proofs unfold exactly
one step at a time.
-/

/-- Rebuilding a string from its character list is the identity. -/
theorem mk_toList (s : String) : String.mk s.toList = s := rfl

/-- Skipping whitespace stops at a non-whitespace head. -/
theorem skipJsonWs_cons_not {c : Char} (cs : List Char) (h : isJsonWs c = false) :
    skipJsonWs (c :: cs) = c :: cs := by
  simp [skipJsonWs, List.dropWhile_cons, h]

/-- Skipping whitespace consumes a whitespace head. -/
theorem skipJsonWs_cons_ws {c : Char} (cs : List Char) (h : isJsonWs c = true) :
    skipJsonWs (c :: cs) = skipJsonWs cs := by
  simp [skipJsonWs, List.dropWhile_cons, h]

/-- Step equation: parsing a value that starts with a quote parses the
string body. -/
theorem parseRec_value_quote (f : Nat) (tail : List Char) :
    parseRec (f + 1) .value ('"' :: tail) =
      (match parseStringBody tail.length tail with
       | some (s, r) => some (.value (.str (String.mk s)), r)
       | none => none) := rfl

/-- Step equation: parsing a value that starts with an opening brace parses
an object. -/
theorem parseRec_value_brace (f : Nat) (tail : List Char) :
    parseRec (f + 1) .value ('\x7b' :: tail) =
      (match skipJsonWs tail with
       | '\x7d' :: r2 => some (.value (.obj []), r2)
       | _ =>
           match parseRec f .objPairs tail with
           | some (.fields ps, r) => some (.value (.obj ps), r)
           | _ => none) := rfl

/-- Step equation: parsing a value that starts with an opening bracket
parses an array. -/
theorem parseRec_value_bracket (f : Nat) (tail : List Char) :
    parseRec (f + 1) .value ('[' :: tail) =
      (match skipJsonWs tail with
       | ']' :: r2 => some (.value (.arr []), r2)
       | _ =>
           match parseRec f .arrTail tail with
           | some (.elems vs, r) => some (.value (.arr vs), r)
           | _ => none) := rfl

/-- Step equation for the array-tail task. -/
theorem parseRec_arrTail_step (f : Nat) (cs : List Char) :
    parseRec (f + 1) .arrTail cs =
      (match parseRec f .value cs with
       | some (.value v, r) =>
           (match skipJsonWs r with
            | ',' :: r2 =>
                (match parseRec f .arrTail r2 with
                 | some (.elems vs, r3) => some (.elems (v :: vs), r3)
                 | _ => none)
            | ']' :: r2 => some (.elems [v], r2)
            | _ => none)
       | _ => none) := rfl

/-- Step equation: parsing the members of an object that start with a
quoted key. -/
theorem parseRec_objPairs_quote (f : Nat) (tail : List Char) :
    parseRec (f + 1) .objPairs ('"' :: tail) =
      (match parseStringBody tail.length tail with
       | some (k, r1) =>
           (match skipJsonWs r1 with
            | ':' :: r2 =>
                (match parseRec f .value r2 with
                 | some (.value v, r3) =>
                     (match skipJsonWs r3 with
                      | ',' :: r4 =>
                          (match parseRec f .objPairs r4 with
                           | some (.fields ps, r5) => some (.fields ((String.mk k, v) :: ps), r5)
                           | _ => none)
                      | '\x7d' :: r4 => some (.fields [(String.mk k, v)], r4)
                      | _ => none)
                 | _ => none)
            | _ => none)
       | none => none) := rfl

/-- String-body round trip: characters that are not quotes, backslashes or
control characters parse back unchanged up to the closing quote. -/
theorem parseStringBody_append (s rest : List Char) (f : Nat) (hf : s.length + 1 ≤ f)
    (h : ∀ c ∈ s, c ≠ '"' ∧ c ≠ '\\' ∧ 32 ≤ c.toNat) :
    parseStringBody f (s ++ '"' :: rest) = some (s, rest) := by
  induction s generalizing f with
  | nil =>
    obtain ⟨f1, rfl⟩ : ∃ f1, f = f1 + 1 := ⟨f - 1, by omega⟩
    rw [List.nil_append]
    rfl
  | cons c s ih =>
    obtain ⟨f1, rfl⟩ : ∃ f1, f = f1 + 1 := ⟨f - 1, by omega⟩
    obtain ⟨h1, h2, h3⟩ := h c (List.mem_cons_self c s)
    have hf1 : s.length + 1 ≤ f1 := by
      simp only [List.length_cons] at hf
      omega
    have ih' := ih f1 hf1 (fun d hd => h d (List.mem_cons_of_mem _ hd))
    simp only [List.cons_append, parseStringBody, List.append_eq]
    rw [if_neg h1, if_neg h2, if_neg (by omega : ¬ c.toNat < 32), ih']

/-- The characters of a grammar-conforming chord are safe inside a JSON
string literal. -/
theorem chordMatches_safe (s : String) (h : chordMatches s = true) :
    ∀ c ∈ s.toList, c ≠ '"' ∧ c ≠ '\\' ∧ 32 ≤ c.toNat := by
  intro c hc
  obtain ⟨q1, q2, _, q4, _, _⟩ := goodChordChar_spec c (chordMatches_good s h c hc)
  exact ⟨q1, q2, q4⟩

/-- Parsing a value whose leading character is whitespace just skips it. -/
theorem parseRec_value_skip (g : Nat) (c : Char) (X : List Char) (h : isJsonWs c = true) :
    parseRec g .value (c :: X) = parseRec g .value X := by
  cases g with
  | zero => rfl
  | succ g => simp only [parseRec, skipJsonWs_cons_ws _ h]

/-- Parsing an array tail whose leading character is whitespace just skips
it. -/
theorem parseRec_arrTail_skip (f : Nat) (c : Char) (X : List Char) (h : isJsonWs c = true) :
    parseRec (f + 1) .arrTail (c :: X) = parseRec (f + 1) .arrTail X := by
  rw [parseRec_arrTail_step, parseRec_arrTail_step, parseRec_value_skip f c X h]

/-- Parsing a quoted chord as a JSON value returns the chord string. -/
theorem parseRec_value_str (f : Nat) (c : String) (tail : List Char)
    (hsafe : ∀ ch ∈ c.toList, ch ≠ '"' ∧ ch ≠ '\\' ∧ 32 ≤ ch.toNat) :
    parseRec (f + 1) .value ('"' :: (c.toList ++ '"' :: tail)) = some (.value (.str c), tail) := by
  rw [parseRec_value_quote]
  rw [parseStringBody_append c.toList tail _ (by simp [List.length_append]) hsafe]
  rfl

/-- Parsing the rendered elements as a JSON array tail returns the chords
as string values and stops right after the closing bracket. -/
theorem parseRec_arrTail_elems :
    ∀ (chords : List String) (f : Nat) (tail : List Char), chords ≠ [] →
      2 * chords.length ≤ f → (∀ s ∈ chords, chordMatches s = true) →
      parseRec f .arrTail (elemsChars chords ++ ']' :: tail)
        = some (.elems (chords.map Json.str), tail)
  | [], _, _, hne, _, _ => absurd rfl hne
  | [c], f, tail, _, hf, hch => by
      simp only [List.length_cons, List.length_nil] at hf
      obtain ⟨f1, rfl⟩ : ∃ f1, f = f1 + 1 := ⟨f - 1, by omega⟩
      obtain ⟨f2, rfl⟩ : ∃ f2, f1 = f2 + 1 := ⟨f1 - 1, by omega⟩
      have hshape : elemsChars [c] ++ ']' :: tail = '"' :: (c.toList ++ '"' :: ']' :: tail) := by
        simp [elemsChars]
      have hsk : skipJsonWs (']' :: tail) = ']' :: tail :=
        skipJsonWs_cons_not _ (by decide)
      rw [hshape, parseRec_arrTail_step,
        parseRec_value_str f2 c (']' :: tail) (chordMatches_safe c (hch c (by simp)))]
      simp [hsk]
  | c :: c2 :: rest, f, tail, _, hf, hch => by
      simp only [List.length_cons] at hf
      obtain ⟨f1, rfl⟩ : ∃ f1, f = f1 + 1 := ⟨f - 1, by omega⟩
      obtain ⟨f2, rfl⟩ : ∃ f2, f1 = f2 + 1 := ⟨f1 - 1, by omega⟩
      have hne2 : (c2 :: rest : List String) ≠ [] := by simp
      have hch2 : ∀ s ∈ c2 :: rest, chordMatches s = true :=
        fun s hs => hch s (List.mem_cons_of_mem _ hs)
      have hf2 : 2 * (c2 :: rest : List String).length ≤ f2 + 1 := by
        simp only [List.length_cons]
        omega
      have hshape : elemsChars (c :: c2 :: rest) ++ ']' :: tail
          = '"' :: (c.toList ++ '"' :: ',' :: ' ' :: (elemsChars (c2 :: rest) ++ ']' :: tail)) := by
        simp [elemsChars]
      have hsk : skipJsonWs (',' :: ' ' :: (elemsChars (c2 :: rest) ++ ']' :: tail))
          = ',' :: ' ' :: (elemsChars (c2 :: rest) ++ ']' :: tail) :=
        skipJsonWs_cons_not _ (by decide)
      rw [hshape, parseRec_arrTail_step,
        parseRec_value_str f2 c _ (chordMatches_safe c (hch c (by simp)))]
      simp only [hsk]
      rw [parseRec_arrTail_skip f2 ' ' _ (by decide : isJsonWs ' ' = true),
        parseRec_arrTail_elems (c2 :: rest) (f2 + 1) tail hne2 hf2 hch2]
      simp

/-- A non-empty rendered element list starts with a quote. -/
theorem elemsChars_cons_head (c : String) (cs : List String) :
    ∃ T, elemsChars (c :: cs) = '"' :: T := by
  cases cs <;> exact ⟨_, rfl⟩

/-- Parsing a rendered array (empty or not) as a JSON value returns the
chord strings. -/
theorem parseRec_value_array (chords : List String) (f : Nat) (tail : List Char)
    (hf : 2 * chords.length ≤ f)
    (hch : ∀ s ∈ chords, chordMatches s = true) :
    parseRec (f + 1) .value ('[' :: (elemsChars chords ++ ']' :: tail))
      = some (.value (.arr (chords.map Json.str)), tail) := by
  rw [parseRec_value_bracket]
  cases chords with
  | nil =>
    have hsk : skipJsonWs (']' :: tail) = ']' :: tail := skipJsonWs_cons_not _ (by decide)
    simp [elemsChars, hsk]
  | cons c cs =>
    obtain ⟨T, hT⟩ := elemsChars_cons_head c cs
    have harr := parseRec_arrTail_elems (c :: cs) f tail (by simp)
      (by simpa using hf) hch
    have hsk : skipJsonWs ('"' :: (T ++ ']' :: tail)) = '"' :: (T ++ ']' :: tail) :=
      skipJsonWs_cons_not _ (by decide)
    rw [hT, List.cons_append] at harr ⊢
    simp [hsk, harr]

/-- Parsing a rendered response as a JSON value yields the singleton object
holding the chord strings and consumes the whole input. -/
theorem parseRec_value_render (chords : List String) (f : Nat)
    (hf : 2 * chords.length + 3 ≤ f)
    (hch : ∀ s ∈ chords, chordMatches s = true) :
    parseRec f .value (renderChars chords) =
      some (.value (.obj [("chordSuggestions", .arr (chords.map Json.str))]), []) := by
  obtain ⟨f1, rfl⟩ : ∃ f1, f = f1 + 1 := ⟨f - 1, by omega⟩
  obtain ⟨f2, rfl⟩ : ∃ f2, f1 = f2 + 1 := ⟨f1 - 1, by omega⟩
  obtain ⟨f3, rfl⟩ : ∃ f3, f2 = f3 + 1 := ⟨f2 - 1, by omega⟩
  have hshape : renderChars chords
      = '\x7b' :: '"' ::
          (keyBody ++ '"' :: ':' :: ' ' :: '[' :: (elemsChars chords ++ ']' :: ['\x7d'])) := by
    simp [renderChars, keyLit]
  rw [hshape, parseRec_value_brace]
  have hskq : skipJsonWs ('"' ::
        (keyBody ++ '"' :: ':' :: ' ' :: '[' :: (elemsChars chords ++ ']' :: ['\x7d'])))
      = '"' :: (keyBody ++ '"' :: ':' :: ' ' :: '[' :: (elemsChars chords ++ ']' :: ['\x7d'])) :=
    skipJsonWs_cons_not _ (by decide)
  simp only [hskq]
  rw [parseRec_objPairs_quote]
  have hkb : parseStringBody
        (keyBody ++ '"' :: ':' :: ' ' :: '[' :: (elemsChars chords ++ ']' :: ['\x7d'])).length
        (keyBody ++ '"' :: ':' :: ' ' :: '[' :: (elemsChars chords ++ ']' :: ['\x7d']))
      = some (keyBody, ':' :: ' ' :: '[' :: (elemsChars chords ++ ']' :: ['\x7d'])) :=
    parseStringBody_append keyBody _ _ (by simp [keyBody]) (by decide)
  simp only [hkb]
  have hskc : skipJsonWs (':' :: ' ' :: '[' :: (elemsChars chords ++ ']' :: ['\x7d']))
      = ':' :: ' ' :: '[' :: (elemsChars chords ++ ']' :: ['\x7d']) :=
    skipJsonWs_cons_not _ (by decide)
  simp only [hskc]
  rw [parseRec_value_skip (f3 + 1) ' ' _ (by decide : isJsonWs ' ' = true)]
  rw [parseRec_value_array chords f3 ['\x7d'] (by omega) hch]
  have hskb : skipJsonWs ['\x7d'] = ['\x7d'] := skipJsonWs_cons_not _ (by decide)
  simp only [hskb]
  rfl

/-- The rendered element list is at least as long as the chord list. -/
theorem elemsChars_length_ge :
    ∀ chords : List String, chords.length ≤ (elemsChars chords).length
  | [] => by simp [elemsChars]
  | [c] => by simp [elemsChars]
  | c :: c2 :: rest => by
      have := elemsChars_length_ge (c2 :: rest)
      simp only [elemsChars, List.length_cons, List.length_append] at this ⊢
      omega

/-- Length of a rendered response in terms of its element list. -/
theorem renderChars_length (chords : List String) :
    (renderChars chords).length = 24 + (elemsChars chords).length := by
  simp [renderChars, keyLit, keyBody]
  omega

/-- `JSON.parse` of a rendered response yields the singleton object holding
the chord strings. -/
theorem jsonParse_render (chords : List String)
    (hch : ∀ s ∈ chords, chordMatches s = true) :
    jsonParse (renderSuggestionsJson chords) =
      some (.obj [("chordSuggestions", .arr (chords.map Json.str))]) := by
  have hlen := elemsChars_length_ge chords
  have hfuel : 2 * chords.length + 3 ≤ 2 * (renderChars chords).length + 2 := by
    have := renderChars_length chords
    omega
  unfold jsonParse
  rw [show (renderSuggestionsJson chords).toList = renderChars chords from rfl]
  rw [parseRec_value_render chords _ hfuel hch]
  rfl

/-- The element loop accepts exactly the grammar-conforming chords and
returns them in order. -/
theorem checkChords_map_str :
    ∀ chords, (∀ s ∈ chords, chordMatches s = true) →
      checkChords (chords.map Json.str) = .ok chords
  | [], _ => rfl
  | c :: rest, h => by
      have hc := h c (List.mem_cons_self c rest)
      have ih := checkChords_map_str rest fun s hs => h s (List.mem_cons_of_mem _ hs)
      simp only [List.map_cons, checkChords]
      rw [if_pos hc, ih]

/-- Core pipeline theorem: on text consisting of brace-free leading text, a
rendered response of grammar-conforming chords, and arbitrary trailing
text, `parseChordSuggestions` returns the chords exactly when there are
NUM_SUGGESTIONS of them, and otherwise rejects the count. -/
theorem parseChordSuggestions_embedded (pre suf : String) (chords : List String)
    (hpre : ∀ c ∈ pre.toList, ¬ c = '\x7b')
    (hch : ∀ s ∈ chords, chordMatches s = true) :
    parseChordSuggestions (pre ++ renderSuggestionsJson chords ++ suf) =
      if chords.length = NUM_SUGGESTIONS then .ok chords
      else .error (.invalidCount chords.length) := by
  have htl : (pre ++ renderSuggestionsJson chords ++ suf).toList
      = pre.toList ++ (renderChars chords ++ suf.toList) := by
    show (pre ++ renderSuggestionsJson chords ++ suf).data
        = pre.data ++ (renderChars chords ++ suf.data)
    rw [String.data_append, String.data_append, List.append_assoc]
    rfl
  unfold parseChordSuggestions
  rw [htl]
  simp only [findFirstMatch_embedded pre.toList chords suf.toList hpre hch]
  rw [show String.mk (renderChars chords) = renderSuggestionsJson chords from rfl]
  simp only [jsonParse_render chords hch]
  simp only [lookupField]
  rw [if_pos trivial]
  simp only [List.length_map]
  by_cases hn : chords.length = NUM_SUGGESTIONS
  · rw [if_neg (by simp [hn]), if_pos hn]
    exact checkChords_map_str chords hch
  · rw [if_pos (by simpa using hn), if_neg hn]

/-!
### Claim theorems for the suggestion pipeline
-/

/-- Twelve distinct grammar-conforming chords used by concrete witnesses. -/
def goodTwelve : List String :=
  ["C", "Dm", "Em", "F", "G", "Am", "Bdim", "Cmaj7", "Dm7", "E7", "F7", "G7"]

/-- C1: for every progression, valid position, and well-formed response
consisting of exactly twelve grammar-conforming chords, `suggestChords`
(through `parseChordSuggestions`) returns exactly those chords, unchanged
and in response order. -/
theorem suggestChords_wellformed_returns_chords (prog : Progression) (position : Int)
    (chords : List String)
    (h0 : 0 ≤ position) (hl : position < (prog.chords.length : Int))
    (hlen : chords.length = 12)
    (hch : ∀ s ∈ chords, chordMatches s = true) :
    suggestChords prog (fun _ => .ok (renderSuggestionsJson chords)) position = .ok chords := by
  unfold suggestChords
  rw [validatePosition_ok prog position h0 hl]
  show parseChordSuggestions (renderSuggestionsJson chords) = .ok chords
  have h := parseChordSuggestions_embedded "" "" chords (by simp) hch
  rw [String.empty_append, String.append_empty] at h
  rw [h, if_pos (show chords.length = NUM_SUGGESTIONS from hlen)]

/-- Witness for C1 at a concrete progression, position, and twelve concrete
chords. -/
theorem suggestChords_wellformed_returns_chords_witness :
    suggestChords { key := "C major", chords := [none] }
      (fun _ => .ok (renderSuggestionsJson goodTwelve)) 0 = .ok goodTwelve :=
  suggestChords_wellformed_returns_chords { key := "C major", chords := [none] } 0 goodTwelve
    (by decide) (by decide) (by decide) (by decide)

/-- C2: a response whose array holds a number of grammar-conforming entries
other than twelve is rejected with the count error citing that number (the
message text cites it verbatim); nothing is truncated or padded. -/
theorem wrong_count_rejected (chords : List String)
    (hch : ∀ s ∈ chords, chordMatches s = true)
    (hlen : chords.length ≠ 12) :
    parseChordSuggestions (renderSuggestionsJson chords)
        = .error (.invalidCount chords.length) ∧
    (PBError.invalidCount chords.length).message
        = "Invalid number of chord suggestions: " ++ toString chords.length := by
  refine ⟨?_, rfl⟩
  have h := parseChordSuggestions_embedded "" "" chords (by simp) hch
  rw [String.empty_append, String.append_empty] at h
  rw [h, if_neg (show ¬ chords.length = NUM_SUGGESTIONS from hlen)]

/-- Witness for C2 with an otherwise well-formed eleven-entry response. -/
theorem wrong_count_rejected_witness :
    parseChordSuggestions (renderSuggestionsJson (goodTwelve.take 11))
        = .error (.invalidCount (goodTwelve.take 11).length) ∧
    (PBError.invalidCount (goodTwelve.take 11).length).message
        = "Invalid number of chord suggestions: " ++ toString (goodTwelve.take 11).length :=
  wrong_count_rejected (goodTwelve.take 11) (by decide) (by decide)

/-- Twelve grammar-conforming entries including the complex symbol
`C13#11b9`. -/
def chordsWithComplex : List String :=
  ["C", "Dm", "Em", "F", "G", "Am", "G7", "C13#11b9", "Dm7", "Em7", "F7", "Am7"]

/-- C3 counterexample: the claim says a 12-entry response containing
`C13#11b9` fails validation with an error citing that value; in fact
CHORD_PATTERN matches `C13#11b9` (root `C`, numeric extension `13`,
altered-degree suffixes `#11` and `b9`), so validation accepts the response
and returns all twelve entries. -/
theorem complex_symbol_cex :
    chordMatches "C13#11b9" = true ∧
    parseChordSuggestions (renderSuggestionsJson chordsWithComplex) = .ok chordsWithComplex := by
  refine ⟨by decide, ?_⟩
  have h := parseChordSuggestions_embedded "" "" chordsWithComplex (by simp) (by decide)
  rw [String.empty_append, String.append_empty] at h
  rw [h, if_pos (by decide)]

/-- C3 amended: a 12-entry response whose other entries conform to
CHORD_PATTERN and which contains `C13#11b9` passes validation and is
returned verbatim — `C13#11b9` itself conforms to CHORD_PATTERN, so the
prompt instruction to avoid such complex symbols is advisory to the
generator only and is not enforced by the validator. -/
theorem complex_symbol_accepted (chords : List String)
    (hlen : chords.length = 12)
    (hmem : "C13#11b9" ∈ chords)
    (hch : ∀ s ∈ chords, s ≠ "C13#11b9" → chordMatches s = true) :
    parseChordSuggestions (renderSuggestionsJson chords) = .ok chords := by
  have hch' : ∀ s ∈ chords, chordMatches s = true := by
    intro s hs
    by_cases he : s = "C13#11b9"
    · rw [he]
      decide
    · exact hch s hs he
  have h := parseChordSuggestions_embedded "" "" chords (by simp) hch'
  rw [String.empty_append, String.append_empty] at h
  rw [h, if_pos (show chords.length = NUM_SUGGESTIONS from hlen)]

/-- Witness for the amended C3 at the concrete twelve-entry list containing
`C13#11b9`. -/
theorem complex_symbol_accepted_witness :
    parseChordSuggestions (renderSuggestionsJson chordsWithComplex) = .ok chordsWithComplex :=
  complex_symbol_accepted chordsWithComplex (by decide) (by decide) (by decide)

/-- A response embedding a well-formed object after prose that itself
contains an opening brace followed by the key. -/
def proseWithBrace : String :=
  "The format is \x7b\"chordSuggestions\": [...]. Here you go: "
    ++ renderSuggestionsJson goodTwelve

set_option maxRecDepth 16000 in
/-- C4 counterexample: the claim quantifies over every response embedding a
valid object in surrounding prose, but prose containing an opening brace
followed by the key hijacks the leftmost regex match: the matched substring
starts at the earlier brace, `JSON.parse` then throws, and the pipeline
fails instead of returning the twelve chords. -/
theorem prose_embedding_cex :
    parseChordSuggestions proseWithBrace = .error .jsonSyntaxError := by
  rfl

/-- C4 amended: a valid rendered response embedded in surrounding text is
still extracted, validated and returned, provided the text before the
object contains no opening brace (markdown fencing and ordinary prose
qualify); the text after the object is arbitrary. -/
theorem embedded_response_extracted (pre suf : String) (chords : List String)
    (hpre : ∀ c ∈ pre.toList, ¬ c = '\x7b')
    (hlen : chords.length = 12)
    (hch : ∀ s ∈ chords, chordMatches s = true) :
    parseChordSuggestions (pre ++ renderSuggestionsJson chords ++ suf) = .ok chords := by
  rw [parseChordSuggestions_embedded pre suf chords hpre hch,
    if_pos (show chords.length = NUM_SUGGESTIONS from hlen)]

/-- Witness for the amended C4 with markdown fencing and prose around the
object. -/
theorem embedded_response_extracted_witness :
    parseChordSuggestions ("Sure! Here are my suggestions:\n```json\n"
        ++ renderSuggestionsJson goodTwelve ++ "\n```\nEnjoy!") = .ok goodTwelve :=
  embedded_response_extracted "Sure! Here are my suggestions:\n```json\n" "\n```\nEnjoy!"
    goodTwelve (by decide) (by decide) (by decide)

/-- C9: validation does not reject duplicates: a twelve-entry
grammar-conforming response whose entries are not all distinct is accepted
and returned verbatim. -/
theorem duplicates_not_rejected (chords : List String)
    (hlen : chords.length = 12)
    (hch : ∀ s ∈ chords, chordMatches s = true)
    (hdup : ¬ chords.Nodup) :
    parseChordSuggestions (renderSuggestionsJson chords) = .ok chords := by
  have h := parseChordSuggestions_embedded "" "" chords (by simp) hch
  rw [String.empty_append, String.append_empty] at h
  rw [h, if_pos (show chords.length = NUM_SUGGESTIONS from hlen)]

/-- Twelve copies of the same chord symbol. -/
def twelveCs : List String :=
  ["C", "C", "C", "C", "C", "C", "C", "C", "C", "C", "C", "C"]

/-- Witness for C9 at twelve copies of the same chord. -/
theorem duplicates_not_rejected_witness :
    parseChordSuggestions (renderSuggestionsJson twelveCs) = .ok twelveCs :=
  duplicates_not_rejected twelveCs (by decide) (by decide) (by decide)

end ChordProg

